import Mathlib

/-!
Verification of the bounded-queue / thread-pool core of the repository
`cen310-thread-programming-fundamentals`.

The code under verification consists of two C translation units:

* `src/c-threads/src/producer_consumer.c` — a condition-variable guarded
  circular buffer (`bounded_buffer_t`) with blocking `buffer_insert` /
  `buffer_remove`;
* `src/c-threads/src/thread_pool.c` — a fixed-size worker pool
  (`thread_pool_t`) whose job queue is the same circular-buffer scheme,
  plus a `shutdown` flag, `thread_pool_start`, `thread_pool_add_work`,
  `worker_thread` and `thread_pool_shutdown`.

Embedding conventions.  Every critical section in the C code is a single
atomic step here: each operation is a pure function from the protected
state to the protected state, and an interleaved execution is a list of
such atomic operations applied in sequence.  A `while (P) SleepConditionVariableCS(...)`
wait is modelled by making the operation's result `blocked`
(no state change) exactly when the wait guard `P` holds — re-running the
operation later models the woken thread re-evaluating its predicate
under the re-acquired lock.  `WakeConditionVariable` /
`WakeAllConditionVariable` calls are modelled as explicit signal values
emitted by each operation, and their effect on blocked threads is given
by `applySignal` on counters of blocked waiters.  The C `int` counters
stay well inside 32 bits throughout (they are bounded by the queue
capacity), so they are modelled as `Nat`.  The `#define`d capacity
`BUFFER_SIZE` (5) is generalised to a parameter `N` in the
producer-consumer model so that capacity statements can be made for all
capacities; all concrete evaluations instantiate `N = 5`.
-/

set_option maxHeartbeats 1000000

/-- The two condition-variable roles shared by both C files:
`not_empty` (`not_empty` / `queue_not_empty`) is waited on by removers,
`not_full` (`not_full` / `queue_not_full`) by inserters. -/
inductive CV
  | not_empty
  | not_full
deriving Repr, DecidableEq

/-- A wake-up call performed inside a critical section:
`wake c` is `WakeConditionVariable(&c)` (wakes at most one waiter),
`wakeAll c` is `WakeAllConditionVariable(&c)` (wakes every waiter). -/
inductive Signal
  | wake (c : CV)
  | wakeAll (c : CV)
deriving Repr, DecidableEq

/-- Counts of threads currently blocked in a condition-variable wait:
`pushers` are blocked on the `not_full` variable (inside
`buffer_insert` / `thread_pool_add_work`), `poppers` on the `not_empty`
variable (inside `buffer_remove` / `worker_thread`). -/
structure Waiters where
  pushers : Nat
  poppers : Nat
deriving Repr, DecidableEq

/-- Effect of one wake-up call on the blocked-thread counters:
`wake` unblocks at most one waiter of the signalled variable,
`wakeAll` unblocks every waiter of the signalled variable. -/
def applySignal (s : Signal) (w : Waiters) : Waiters :=
  match s with
  | .wake .not_full => { w with pushers := w.pushers - 1 }
  | .wake .not_empty => { w with poppers := w.poppers - 1 }
  | .wakeAll .not_full => { w with pushers := 0 }
  | .wakeAll .not_empty => { w with poppers := 0 }

/-- Effect of a sequence of wake-up calls, in program order. -/
def applySignals (sigs : List Signal) (w : Waiters) : Waiters :=
  match sigs with
  | [] => w
  | s :: rest => applySignals rest (applySignal s w)

namespace PC

/-- Capacity constant `BUFFER_SIZE` of `producer_consumer.c`. -/
def BUFFER_SIZE : Nat := 5

/-- State of the C struct `bounded_buffer_t` (producer_consumer.c lines
23-31): the circular `buffer` array (modelled as a list of fixed length
`N`), the item `count`, and the insertion / removal indices.  The C
fields `in` and `out` are named `inIdx` / `outIdx` because `in` is a
Lean keyword. -/
structure bounded_buffer_t where
  buffer : List Int
  count : Nat
  inIdx : Nat
  outIdx : Nat
deriving Repr, DecidableEq

/-- `init_buffer` (producer_consumer.c lines 37-48): zero count and
indices.  The C array contents start unspecified; they are modelled as
zeros and are never read before being written. -/
def init_buffer (N : Nat) : bounded_buffer_t :=
  { buffer := List.replicate N 0, count := 0, inIdx := 0, outIdx := 0 }

/-- `buffer_insert` (producer_consumer.c lines 60-82) as one atomic
step.  Result `none` models the `while (count == BUFFER_SIZE)` wait on
`not_full`: the caller blocks and the state is unchanged.  Otherwise
the item is stored at index `in`, `in` advances mod `N`, `count`
increments, and `WakeConditionVariable(&not_empty)` is emitted. -/
def buffer_insert (N : Nat) (item : Int) (b : bounded_buffer_t) :
    Option (bounded_buffer_t × List Signal) :=
  if b.count = N then
    none
  else
    some ({ buffer := b.buffer.set b.inIdx item,
            count := b.count + 1,
            inIdx := (b.inIdx + 1) % N,
            outIdx := b.outIdx },
          [Signal.wake CV.not_empty])

/-- `buffer_remove` (producer_consumer.c lines 85-111) as one atomic
step.  Result `none` models the `while (count == 0)` wait on
`not_empty`.  Otherwise the item at index `out` is returned, `out`
advances mod `N`, `count` decrements, and
`WakeConditionVariable(&not_full)` is emitted. -/
def buffer_remove (N : Nat) (b : bounded_buffer_t) :
    Option (Int × bounded_buffer_t × List Signal) :=
  if b.count = 0 then
    none
  else
    some (b.buffer.getD b.outIdx 0,
          { buffer := b.buffer,
            count := b.count - 1,
            inIdx := b.inIdx,
            outIdx := (b.outIdx + 1) % N },
          [Signal.wake CV.not_full])

/-- One producer or consumer call on the shared buffer. -/
inductive BufOp
  | insert (item : Int)
  | remove
deriving Repr, DecidableEq

/-- Apply one call as an atomic step; a blocked call leaves the state
unchanged (the calling thread is still waiting). -/
def applyOp (N : Nat) (op : BufOp) (b : bounded_buffer_t) : bounded_buffer_t :=
  match op with
  | .insert item =>
    match buffer_insert N item b with
    | none => b
    | some (b', _) => b'
  | .remove =>
    match buffer_remove N b with
    | none => b
    | some (_, b', _) => b'

/-- Execute an arbitrary interleaving: each element is one atomic
critical section, applied in schedule order. -/
def execOps (N : Nat) (ops : List BufOp) (b : bounded_buffer_t) : bounded_buffer_t :=
  match ops with
  | [] => b
  | op :: rest => execOps N rest (applyOp N op b)

/-- The logical FIFO contents of the circular buffer: the `count` items
starting at index `out`, wrapping mod `N`. -/
def absQ (N : Nat) (b : bounded_buffer_t) : List Int :=
  (List.range b.count).map (fun k => b.buffer.getD ((b.outIdx + k) % N) 0)

/-- Representation invariant of the circular buffer: the backing array
has length `N`, the count never exceeds the capacity, the removal index
is in bounds, and the insertion index is `out + count` mod `N`. -/
structure Inv (N : Nat) (b : bounded_buffer_t) : Prop where
  hlen : b.buffer.length = N
  hcount : b.count ≤ N
  hout : b.outIdx < N
  hin : b.inIdx = (b.outIdx + b.count) % N

/-- A run of producer calls back to back: each value of `xs` is handed
to `buffer_insert` in order; `none` if any call would block. -/
def pushAll (N : Nat) (xs : List Int) (b : bounded_buffer_t) :
    Option bounded_buffer_t :=
  match xs with
  | [] => some b
  | x :: rest =>
    match buffer_insert N x b with
    | none => none
    | some (b', _) => pushAll N rest b'

/-- A run of `n` consumer calls back to back by a single consumer,
collecting the removed items in order; `none` if any call would block. -/
def popN (N : Nat) (n : Nat) (b : bounded_buffer_t) :
    Option (List Int × bounded_buffer_t) :=
  match n with
  | 0 => some ([], b)
  | n + 1 =>
    match buffer_remove N b with
    | none => none
    | some (x, b', _) =>
      match popN N n b' with
      | none => none
      | some (xs, bEnd) => some (x :: xs, bEnd)

end PC

namespace TP

/-- Capacity constant `MAX_QUEUE_SIZE` of `thread_pool.c`. -/
def MAX_QUEUE_SIZE : Nat := 100

/-- Worker-count constant `THREAD_POOL_SIZE` of `thread_pool.c`. -/
def THREAD_POOL_SIZE : Nat := 4

/-- The C struct `work_item_t` (thread_pool.c lines 18-21): a function
pointer and its argument.  Both are opaque machine words to the queue;
they are modelled as natural-number identifiers, which is all the queue
logic ever depends on. -/
structure work_item_t where
  function : Nat
  argument : Nat
deriving Repr, DecidableEq

/-- The queue-related fields of the C struct `thread_pool_t`
(thread_pool.c lines 24-36): circular `queue` array (modelled as a list
of fixed length `MAX_QUEUE_SIZE`), current `queue_size`, removal index
`head`, insertion index `tail`, and the `shutdown` flag.  The worker
handles and the synchronization objects live at the system level. -/
structure thread_pool_t where
  queue : List work_item_t
  queue_size : Nat
  head : Nat
  tail : Nat
  shutdown : Bool
deriving Repr, DecidableEq

/-- `thread_pool_init` (thread_pool.c lines 42-64): empty queue, zero
indices, `shutdown = false`.  The C array contents start unspecified;
they are modelled as a fixed dummy item and are never read before being
written. -/
def thread_pool_init : thread_pool_t :=
  { queue := List.replicate MAX_QUEUE_SIZE ⟨0, 0⟩,
    queue_size := 0, head := 0, tail := 0, shutdown := false }

/-- Outcome of one `thread_pool_add_work` critical section. -/
inductive AddResult
  | blocked
  | rejected
  | added
deriving Repr, DecidableEq

/-- `thread_pool_add_work` (thread_pool.c lines 108-137) as one atomic
step.  `blocked` models the `while (queue_size == MAX_QUEUE_SIZE && !shutdown)`
wait on `queue_not_full` (no state change); `rejected` is the
`if (shutdown) return false` path; `added` stores the item at `tail`,
advances `tail` mod `MAX_QUEUE_SIZE`, increments `queue_size` and emits
`WakeConditionVariable(&queue_not_empty)`. -/
def thread_pool_add_work (w : work_item_t) (tp : thread_pool_t) :
    AddResult × thread_pool_t × List Signal :=
  if tp.queue_size = MAX_QUEUE_SIZE ∧ tp.shutdown = false then
    (.blocked, tp, [])
  else if tp.shutdown then
    (.rejected, tp, [])
  else
    (.added,
     { tp with queue := tp.queue.set tp.tail w,
               tail := (tp.tail + 1) % MAX_QUEUE_SIZE,
               queue_size := tp.queue_size + 1 },
     [Signal.wake CV.not_empty])

/-- Outcome of one iteration of the `worker_thread` loop. -/
inductive PopResult
  | blocked
  | closed
  | got (w : work_item_t)
deriving Repr, DecidableEq

/-- One iteration of the `worker_thread` loop (thread_pool.c lines
144-173) as one atomic step.  `blocked` models the
`while (queue_size == 0 && !shutdown)` wait on `queue_not_empty`;
`closed` is the `if (shutdown && queue_size == 0) break` exit path;
`got w` dequeues the item at `head`, advances `head` mod
`MAX_QUEUE_SIZE`, decrements `queue_size`, emits
`WakeConditionVariable(&queue_not_full)`, and the worker then runs
`w.function(w.argument)` outside the lock. -/
def worker_pop (tp : thread_pool_t) : PopResult × thread_pool_t × List Signal :=
  if tp.queue_size = 0 ∧ tp.shutdown = false then
    (.blocked, tp, [])
  else if tp.shutdown ∧ tp.queue_size = 0 then
    (.closed, tp, [])
  else
    (.got (tp.queue.getD tp.head ⟨0, 0⟩),
     { tp with head := (tp.head + 1) % MAX_QUEUE_SIZE,
               queue_size := tp.queue_size - 1 },
     [Signal.wake CV.not_full])

/-- The critical-section body of `thread_pool_shutdown` (thread_pool.c
lines 186-195): set the `shutdown` flag and
`WakeAllConditionVariable(&queue_not_empty)`.  This is the only wake-up
the shutdown path performs; the join loop and the free follow outside
the lock. -/
def thread_pool_shutdown_lock (tp : thread_pool_t) :
    thread_pool_t × List Signal :=
  ({ tp with shutdown := true }, [Signal.wakeAll CV.not_empty])

/-- A pool as the demo owns it: the shared pool state plus the number of
worker threads spawned by `thread_pool_start` and not yet joined. -/
structure PoolSys where
  tp : thread_pool_t
  live_workers : Nat
deriving Repr, DecidableEq

/-- `thread_pool_start` (thread_pool.c lines 70-105) on the path where
every `CreateThread` succeeds (the failure path tears the pool down and
is not part of the lifecycle claims): it unconditionally creates
`THREAD_POOL_SIZE` worker threads — there is no already-started check
anywhere in the function — overwrites the handle array with the new
handles, and returns `true`. -/
def thread_pool_start (s : PoolSys) : Bool × PoolSys :=
  (true, { s with live_workers := s.live_workers + THREAD_POOL_SIZE })

/-- `thread_pool_shutdown` (thread_pool.c lines 180-210) as seen through
the caller's handle, `none` being the NULL / freed handle as the demo
maintains it (`thread_pool_demo` sets `g_pool = NULL` after shutdown).
On `none` the guard at line 181 returns at once: no join, no free.  On a
live pool it sets the flag, wakes all waiting workers, joins and closes
all `THREAD_POOL_SIZE` worker handles, and frees the pool, so the handle
becomes `none`.  The returned number counts worker handles joined and
closed by this call. -/
def thread_pool_shutdown (p : Option PoolSys) : Option PoolSys × Nat :=
  match p with
  | none => (none, 0)
  | some _ => (none, THREAD_POOL_SIZE)

/-- Logical FIFO contents of the job queue: the `queue_size` items
starting at `head`, wrapping mod `MAX_QUEUE_SIZE`. -/
def absTP (tp : thread_pool_t) : List work_item_t :=
  (List.range tp.queue_size).map
    (fun k => tp.queue.getD ((tp.head + k) % MAX_QUEUE_SIZE) ⟨0, 0⟩)

/-- Representation invariant of the job queue. -/
structure InvTP (tp : thread_pool_t) : Prop where
  hlen : tp.queue.length = MAX_QUEUE_SIZE
  hcount : tp.queue_size ≤ MAX_QUEUE_SIZE
  hhead : tp.head < MAX_QUEUE_SIZE
  htail : tp.tail = (tp.head + tp.queue_size) % MAX_QUEUE_SIZE

/-- One scheduled critical section of the pool system: a submitter call,
one worker-loop iteration, or the shutdown flag-setting section. -/
inductive TPOp
  | add_work (w : work_item_t)
  | work
  | shutdown_flag
deriving Repr, DecidableEq

/-- System state for whole-run accounting: the shared pool plus the
ledger of jobs accepted by `thread_pool_add_work` (those for which it
returned `true`) and the jobs dequeued-and-executed by workers. -/
structure SysState where
  tp : thread_pool_t
  accepted : List work_item_t
  executed : List work_item_t
deriving Repr, DecidableEq

/-- Initial system: freshly initialized pool, nothing accepted or
executed. -/
def initSys : SysState :=
  { tp := thread_pool_init, accepted := [], executed := [] }

/-- Apply one scheduled critical section.  A blocked or rejected call
changes nothing; an accepted submission is recorded in `accepted`; a
dequeued job is executed by the worker and recorded in `executed`. -/
def execOp (op : TPOp) (s : SysState) : SysState :=
  match op with
  | .add_work w =>
    match thread_pool_add_work w s.tp with
    | (.added, tp', _) => { s with tp := tp', accepted := s.accepted ++ [w] }
    | _ => s
  | .work =>
    match worker_pop s.tp with
    | (.got w, tp', _) => { s with tp := tp', executed := s.executed ++ [w] }
    | _ => s
  | .shutdown_flag =>
    { s with tp := (thread_pool_shutdown_lock s.tp).1 }

/-- Execute an arbitrary interleaving of submitter, worker and shutdown
critical sections, in schedule order. -/
def execOps (ops : List TPOp) (s : SysState) : SysState :=
  match ops with
  | [] => s
  | op :: rest => execOps rest (execOp op s)

/-- Whole-run accounting invariant: the queue representation is sound
and every accepted job is either already executed or still queued, in
FIFO order. -/
def LedgerInv (s : SysState) : Prop :=
  InvTP s.tp ∧ s.accepted = s.executed ++ absTP s.tp

/-- A run of successful submissions back to back; `none` if any call
does not return `added`. -/
def pushAllTP (ws : List work_item_t) (tp : thread_pool_t) :
    Option thread_pool_t :=
  match ws with
  | [] => some tp
  | w :: rest =>
    match thread_pool_add_work w tp with
    | (.added, tp', _) => pushAllTP rest tp'
    | _ => none

/-- A run of `n` worker-loop iterations back to back, collecting the
dequeued (hence executed) jobs in order; `none` if any iteration blocks
or exits the loop. -/
def drainTP (n : Nat) (tp : thread_pool_t) :
    Option (List work_item_t × thread_pool_t) :=
  match n with
  | 0 => some ([], tp)
  | n + 1 =>
    match worker_pop tp with
    | (.got w, tp', _) =>
      match drainTP n tp' with
      | some (ws, tpE) => some (w :: ws, tpE)
      | none => none
    | _ => none

end TP

theorem getD_set_ne {α : Type} (a d : α) {m n : Nat} {l : List α} (h : m ≠ n) :
    (l.set m a).getD n d = l.getD n d := by
  simp [List.getD_eq_getElem?_getD, List.getElem?_set_ne h]

theorem getD_set_self {α : Type} (a d : α) {n : Nat} {l : List α} (h : n < l.length) :
    (l.set n a).getD n d = a := by
  simp [List.getD_eq_getElem?_getD, List.getElem?_set_self, h]

theorem mod_shift_inj {N out k c : Nat} (hk : k < N) (hc : c < N)
    (h : (out + k) % N = (out + c) % N) : k = c := by
  have h1 : out + k ≡ out + c [MOD N] := h
  have h2 : k ≡ c [MOD N] := Nat.ModEq.add_left_cancel (Nat.ModEq.refl out) h1
  calc k = k % N := (Nat.mod_eq_of_lt hk).symm
    _ = c % N := h2
    _ = c := Nat.mod_eq_of_lt hc

namespace PC

theorem count_le_applyOp (N : Nat) (op : BufOp) (b : bounded_buffer_t)
    (h : b.count ≤ N) : (applyOp N op b).count ≤ N := by
  cases op with
  | insert item =>
    by_cases hc : b.count = N
    · simp [applyOp, buffer_insert, hc]
    · simp only [applyOp, buffer_insert, if_neg hc]
      exact Nat.lt_of_le_of_ne h hc
  | remove =>
    by_cases hc : b.count = 0
    · simp [applyOp, buffer_remove, hc]
    · simp only [applyOp, buffer_remove, if_neg hc]
      exact le_trans (Nat.sub_le _ _) h

theorem count_le_execOps (N : Nat) (ops : List BufOp) (b : bounded_buffer_t)
    (h : b.count ≤ N) : (execOps N ops b).count ≤ N := by
  induction ops generalizing b with
  | nil => exact h
  | cons op rest ih => exact ih _ (count_le_applyOp N op b h)

theorem absQ_length (N : Nat) (b : bounded_buffer_t) :
    (absQ N b).length = b.count := by
  simp [absQ]

theorem init_buffer_Inv (N : Nat) (hN : 0 < N) : Inv N (init_buffer N) :=
  ⟨by simp [init_buffer], by simp [init_buffer], by simpa [init_buffer] using hN,
   by simp [init_buffer]⟩

theorem absQ_init (N : Nat) : absQ N (init_buffer N) = [] := by
  simp [absQ, init_buffer]

theorem buffer_insert_some (N : Nat) (item : Int) (b : bounded_buffer_t)
    (hroom : b.count < N) :
    buffer_insert N item b =
      some ({ buffer := b.buffer.set b.inIdx item, count := b.count + 1,
              inIdx := (b.inIdx + 1) % N, outIdx := b.outIdx },
            [Signal.wake CV.not_empty]) := by
  simp [buffer_insert, Nat.ne_of_lt hroom]

theorem insert_Inv (N : Nat) (item : Int) (b : bounded_buffer_t)
    (hInv : Inv N b) (hroom : b.count < N) :
    Inv N { buffer := b.buffer.set b.inIdx item, count := b.count + 1,
            inIdx := (b.inIdx + 1) % N, outIdx := b.outIdx } := by
  obtain ⟨hlen, hcount, hout, hin⟩ := hInv
  refine ⟨by simpa using hlen, hroom, hout, ?_⟩
  simp only []
  rw [hin, Nat.mod_add_mod]
  congr 1

theorem absQ_insert (N : Nat) (item : Int) (b : bounded_buffer_t)
    (hInv : Inv N b) (hroom : b.count < N) :
    absQ N { buffer := b.buffer.set b.inIdx item, count := b.count + 1,
             inIdx := (b.inIdx + 1) % N, outIdx := b.outIdx }
      = absQ N b ++ [item] := by
  obtain ⟨hlen, hcount, hout, hin⟩ := hInv
  have hN : 0 < N := lt_of_le_of_lt (Nat.zero_le _) hroom
  unfold absQ
  simp only [List.range_succ, List.map_append, List.map_cons, List.map_nil]
  congr 1
  · apply List.map_congr_left
    intro k hk
    have hkc : k < b.count := List.mem_range.mp hk
    apply getD_set_ne
    rw [hin]
    intro hEq
    exact absurd (mod_shift_inj hroom (lt_trans hkc hroom) hEq)
      (Nat.ne_of_gt hkc)
  · rw [← hin]
    simp only [List.cons.injEq, and_true]
    apply getD_set_self
    rw [hlen, hin]
    exact Nat.mod_lt _ hN

theorem buffer_remove_some (N : Nat) (b : bounded_buffer_t)
    (hne : 0 < b.count) :
    buffer_remove N b =
      some (b.buffer.getD b.outIdx 0,
            { buffer := b.buffer, count := b.count - 1,
              inIdx := b.inIdx, outIdx := (b.outIdx + 1) % N },
            [Signal.wake CV.not_full]) := by
  simp [buffer_remove, Nat.ne_of_gt hne]

theorem remove_Inv (N : Nat) (b : bounded_buffer_t)
    (hInv : Inv N b) (hne : 0 < b.count) :
    Inv N { buffer := b.buffer, count := b.count - 1,
            inIdx := b.inIdx, outIdx := (b.outIdx + 1) % N } := by
  obtain ⟨hlen, hcount, hout, hin⟩ := hInv
  have hN : 0 < N := lt_of_le_of_lt (Nat.zero_le _) hout
  refine ⟨hlen, le_trans (Nat.sub_le _ _) hcount, Nat.mod_lt _ hN, ?_⟩
  simp only []
  rw [hin, Nat.mod_add_mod]
  congr 1
  omega

theorem absQ_remove (N : Nat) (b : bounded_buffer_t)
    (hInv : Inv N b) (hne : 0 < b.count) :
    absQ N b = b.buffer.getD b.outIdx 0 ::
      absQ N { buffer := b.buffer, count := b.count - 1,
               inIdx := b.inIdx, outIdx := (b.outIdx + 1) % N } := by
  obtain ⟨hlen, hcount, hout, hin⟩ := hInv
  unfold absQ
  obtain ⟨c, hc⟩ : ∃ c, b.count = c + 1 :=
    ⟨b.count - 1, (Nat.succ_pred_eq_of_pos hne).symm⟩
  rw [hc]
  simp only [List.range_succ_eq_map, List.map_cons, List.map_map, Nat.add_sub_cancel]
  congr 1
  · rw [Nat.add_zero, Nat.mod_eq_of_lt hout]
  · apply List.map_congr_left
    intro k hk
    simp only [Function.comp]
    congr 1
    rw [Nat.mod_add_mod]
    congr 1
    omega

theorem pushAll_spec (N : Nat) (xs : List Int) (b : bounded_buffer_t)
    (hInv : Inv N b) (hlen : b.count + xs.length ≤ N) :
    ∃ b', pushAll N xs b = some b' ∧ Inv N b' ∧
      absQ N b' = absQ N b ++ xs := by
  induction xs generalizing b with
  | nil => exact ⟨b, rfl, hInv, by simp⟩
  | cons x rest ih =>
    have hroom : b.count < N := by
      have := hlen
      simp only [List.length_cons] at this
      omega
    obtain ⟨b', hb', hInv', habs'⟩ :=
      ih _ (insert_Inv N x b hInv hroom) (by
        have : ({ buffer := b.buffer.set b.inIdx x, count := b.count + 1,
                  inIdx := (b.inIdx + 1) % N,
                  outIdx := b.outIdx } : bounded_buffer_t).count = b.count + 1 := rfl
        simp only [List.length_cons] at hlen
        omega)
    refine ⟨b', ?_, hInv', ?_⟩
    · rw [pushAll, buffer_insert_some N x b hroom]
      exact hb'
    · rw [habs', absQ_insert N x b hInv hroom, List.append_assoc]
      rfl

theorem popN_spec (N : Nat) (q : List Int) (b : bounded_buffer_t)
    (hInv : Inv N b) (habs : absQ N b = q) :
    ∃ bEnd, popN N q.length b = some (q, bEnd) ∧ Inv N bEnd ∧
      bEnd.count = 0 := by
  induction q generalizing b with
  | nil =>
    refine ⟨b, rfl, hInv, ?_⟩
    have := absQ_length N b
    rw [habs] at this
    simpa using this.symm
  | cons x rest ih =>
    have hpos : 0 < b.count := by
      have := absQ_length N b
      rw [habs] at this
      simp at this
      omega
    have hsplit := absQ_remove N b hInv hpos
    rw [habs] at hsplit
    injection hsplit with hx hrest
    obtain ⟨bEnd, hrun, hInvE, hcE⟩ := ih _ (remove_Inv N b hInv hpos) hrest.symm
    refine ⟨bEnd, ?_, hInvE, hcE⟩
    rw [List.length_cons, popN, buffer_remove_some N b hpos]
    simp only [hrun, ← hx]

theorem Inv.hin_lt {N : Nat} {b : bounded_buffer_t} (hInv : Inv N b) :
    b.inIdx < N := by
  have hN : 0 < N := lt_of_le_of_lt (Nat.zero_le _) hInv.hout
  rw [hInv.hin]
  exact Nat.mod_lt _ hN

theorem applyOp_Inv (N : Nat) (op : BufOp) (b : bounded_buffer_t)
    (hInv : Inv N b) : Inv N (applyOp N op b) := by
  cases op with
  | insert item =>
    by_cases hc : b.count = N
    · simpa [applyOp, buffer_insert, hc] using hInv
    · have hroom : b.count < N := Nat.lt_of_le_of_ne hInv.hcount hc
      simp only [applyOp, buffer_insert_some N item b hroom]
      exact insert_Inv N item b hInv hroom
  | remove =>
    by_cases hc : b.count = 0
    · simpa [applyOp, buffer_remove, hc] using hInv
    · have hpos : 0 < b.count := Nat.pos_of_ne_zero hc
      simp only [applyOp, buffer_remove_some N b hpos]
      exact remove_Inv N b hInv hpos

theorem execOps_Inv (N : Nat) (ops : List BufOp) (b : bounded_buffer_t)
    (hInv : Inv N b) : Inv N (execOps N ops b) := by
  induction ops generalizing b with
  | nil => exact hInv
  | cons op rest ih => exact ih _ (applyOp_Inv N op b hInv)

end PC

namespace TP

theorem MAX_pos : 0 < MAX_QUEUE_SIZE := by decide

theorem absTP_length (tp : thread_pool_t) : (absTP tp).length = tp.queue_size := by
  simp [absTP]

theorem init_InvTP : InvTP thread_pool_init :=
  ⟨by simp [thread_pool_init, MAX_QUEUE_SIZE], by simp [thread_pool_init],
   by simp [thread_pool_init, MAX_QUEUE_SIZE], by simp [thread_pool_init]⟩

theorem absTP_init : absTP thread_pool_init = [] := by
  simp [absTP, thread_pool_init]

theorem add_work_added (w : work_item_t) (tp : thread_pool_t)
    (hroom : tp.queue_size < MAX_QUEUE_SIZE) (hsd : tp.shutdown = false) :
    thread_pool_add_work w tp =
      (.added,
       { tp with queue := tp.queue.set tp.tail w,
                 tail := (tp.tail + 1) % MAX_QUEUE_SIZE,
                 queue_size := tp.queue_size + 1 },
       [Signal.wake CV.not_empty]) := by
  simp [thread_pool_add_work, hsd, Nat.ne_of_lt hroom]

theorem added_InvTP (w : work_item_t) (tp : thread_pool_t)
    (hInv : InvTP tp) (hroom : tp.queue_size < MAX_QUEUE_SIZE) :
    InvTP { tp with queue := tp.queue.set tp.tail w,
                    tail := (tp.tail + 1) % MAX_QUEUE_SIZE,
                    queue_size := tp.queue_size + 1 } := by
  obtain ⟨hlen, hcount, hhead, htail⟩ := hInv
  refine ⟨by simpa using hlen, hroom, hhead, ?_⟩
  simp only []
  rw [htail, Nat.mod_add_mod]
  congr 1

theorem absTP_added (w : work_item_t) (tp : thread_pool_t)
    (hInv : InvTP tp) (hroom : tp.queue_size < MAX_QUEUE_SIZE) :
    absTP { tp with queue := tp.queue.set tp.tail w,
                    tail := (tp.tail + 1) % MAX_QUEUE_SIZE,
                    queue_size := tp.queue_size + 1 }
      = absTP tp ++ [w] := by
  obtain ⟨hlen, hcount, hhead, htail⟩ := hInv
  unfold absTP
  simp only [List.range_succ, List.map_append, List.map_cons, List.map_nil]
  congr 1
  · apply List.map_congr_left
    intro k hk
    have hkc : k < tp.queue_size := List.mem_range.mp hk
    apply getD_set_ne
    rw [htail]
    intro hEq
    exact absurd (mod_shift_inj hroom (lt_trans hkc hroom) hEq)
      (Nat.ne_of_gt hkc)
  · rw [← htail]
    simp only [List.cons.injEq, and_true]
    apply getD_set_self
    rw [hlen, htail]
    exact Nat.mod_lt _ MAX_pos

theorem worker_pop_got (tp : thread_pool_t) (hpos : 0 < tp.queue_size) :
    worker_pop tp =
      (.got (tp.queue.getD tp.head ⟨0, 0⟩),
       { tp with head := (tp.head + 1) % MAX_QUEUE_SIZE,
                 queue_size := tp.queue_size - 1 },
       [Signal.wake CV.not_full]) := by
  simp [worker_pop, Nat.ne_of_gt hpos]

theorem got_InvTP (tp : thread_pool_t)
    (hInv : InvTP tp) (hpos : 0 < tp.queue_size) :
    InvTP { tp with head := (tp.head + 1) % MAX_QUEUE_SIZE,
                    queue_size := tp.queue_size - 1 } := by
  obtain ⟨hlen, hcount, hhead, htail⟩ := hInv
  refine ⟨hlen, le_trans (Nat.sub_le _ _) hcount, Nat.mod_lt _ MAX_pos, ?_⟩
  simp only []
  rw [htail, Nat.mod_add_mod]
  congr 1
  omega

theorem absTP_got (tp : thread_pool_t)
    (hInv : InvTP tp) (hpos : 0 < tp.queue_size) :
    absTP tp = tp.queue.getD tp.head ⟨0, 0⟩ ::
      absTP { tp with head := (tp.head + 1) % MAX_QUEUE_SIZE,
                      queue_size := tp.queue_size - 1 } := by
  obtain ⟨hlen, hcount, hhead, htail⟩ := hInv
  unfold absTP
  obtain ⟨c, hc⟩ : ∃ c, tp.queue_size = c + 1 :=
    ⟨tp.queue_size - 1, (Nat.succ_pred_eq_of_pos hpos).symm⟩
  rw [hc]
  simp only [List.range_succ_eq_map, List.map_cons, List.map_map, Nat.add_sub_cancel]
  congr 1
  · rw [Nat.add_zero, Nat.mod_eq_of_lt hhead]
  · apply List.map_congr_left
    intro k hk
    simp only [Function.comp]
    congr 1
    rw [Nat.mod_add_mod]
    congr 1
    omega

theorem add_work_rejected (w : work_item_t) (tp : thread_pool_t)
    (hsd : tp.shutdown = true) :
    thread_pool_add_work w tp = (.rejected, tp, []) := by
  simp [thread_pool_add_work, hsd]

theorem worker_pop_closed (tp : thread_pool_t)
    (hsd : tp.shutdown = true) (hz : tp.queue_size = 0) :
    worker_pop tp = (.closed, tp, []) := by
  simp [worker_pop, hsd, hz]

theorem initSys_LedgerInv : LedgerInv initSys :=
  ⟨init_InvTP, by simp [initSys, absTP_init]⟩

theorem execOp_LedgerInv (op : TPOp) (s : SysState) (h : LedgerInv s) :
    LedgerInv (execOp op s) := by
  obtain ⟨hInv, hled⟩ := h
  cases op with
  | add_work w =>
    by_cases hfull : s.tp.queue_size = MAX_QUEUE_SIZE ∧ s.tp.shutdown = false
    · simp only [execOp, thread_pool_add_work, if_pos hfull]
      exact ⟨hInv, hled⟩
    · by_cases hsd : s.tp.shutdown
      · rw [execOp, add_work_rejected w s.tp hsd]
        exact ⟨hInv, hled⟩
      · have hsd' : s.tp.shutdown = false := by simpa using hsd
        have hroom : s.tp.queue_size < MAX_QUEUE_SIZE := by
          rcases Nat.lt_or_ge s.tp.queue_size MAX_QUEUE_SIZE with hlt | hge
          · exact hlt
          · exact absurd ⟨le_antisymm hInv.hcount hge, hsd'⟩ hfull
        rw [execOp, add_work_added w s.tp hroom hsd']
        refine ⟨added_InvTP w s.tp hInv hroom, ?_⟩
        simp only []
        rw [absTP_added w s.tp hInv hroom, hled, List.append_assoc]
  | work =>
    by_cases hz : s.tp.queue_size = 0
    · by_cases hsd : s.tp.shutdown
      · rw [execOp, worker_pop_closed s.tp hsd hz]
        exact ⟨hInv, hled⟩
      · have hsd' : s.tp.shutdown = false := by simpa using hsd
        simp only [execOp, worker_pop, if_pos (And.intro hz hsd')]
        exact ⟨hInv, hled⟩
    · have hpos : 0 < s.tp.queue_size := Nat.pos_of_ne_zero hz
      rw [execOp, worker_pop_got s.tp hpos]
      refine ⟨got_InvTP s.tp hInv hpos, ?_⟩
      simp only []
      rw [hled, absTP_got s.tp hInv hpos, List.append_assoc]
      rfl
  | shutdown_flag =>
    exact ⟨⟨hInv.hlen, hInv.hcount, hInv.hhead, hInv.htail⟩, hled⟩

theorem execOps_LedgerInv (ops : List TPOp) (s : SysState)
    (h : LedgerInv s) : LedgerInv (execOps ops s) := by
  induction ops generalizing s with
  | nil => exact h
  | cons op rest ih => exact ih _ (execOp_LedgerInv op s h)

theorem pushAllTP_spec (ws : List work_item_t) (tp : thread_pool_t)
    (hInv : InvTP tp) (hsd : tp.shutdown = false)
    (hlen : tp.queue_size + ws.length ≤ MAX_QUEUE_SIZE) :
    ∃ tp', pushAllTP ws tp = some tp' ∧ InvTP tp' ∧
      tp'.shutdown = false ∧ absTP tp' = absTP tp ++ ws := by
  induction ws generalizing tp with
  | nil => exact ⟨tp, rfl, hInv, hsd, by simp⟩
  | cons w rest ih =>
    have hroom : tp.queue_size < MAX_QUEUE_SIZE := by
      simp only [List.length_cons] at hlen
      omega
    obtain ⟨tp', hrun, hInv', hsd', habs'⟩ :=
      ih _ (added_InvTP w tp hInv hroom) hsd (by
        simp only [List.length_cons] at hlen
        show tp.queue_size + 1 + rest.length ≤ MAX_QUEUE_SIZE
        omega)
    refine ⟨tp', ?_, hInv', hsd', ?_⟩
    · rw [pushAllTP, add_work_added w tp hroom hsd]
      exact hrun
    · rw [habs', absTP_added w tp hInv hroom, List.append_assoc]
      rfl

theorem drainTP_spec (q : List work_item_t) (tp : thread_pool_t)
    (hInv : InvTP tp) (habs : absTP tp = q) :
    ∃ tpE, drainTP q.length tp = some (q, tpE) ∧ InvTP tpE ∧
      tpE.queue_size = 0 ∧ tpE.shutdown = tp.shutdown := by
  induction q generalizing tp with
  | nil =>
    refine ⟨tp, rfl, hInv, ?_, rfl⟩
    have hl := absTP_length tp
    rw [habs] at hl
    simpa using hl.symm
  | cons w rest ih =>
    have hpos : 0 < tp.queue_size := by
      have hl := absTP_length tp
      rw [habs] at hl
      simp at hl
      omega
    have hsplit := absTP_got tp hInv hpos
    rw [habs] at hsplit
    injection hsplit with hw hrest
    obtain ⟨tpE, hrun, hInvE, hzE, hsdE⟩ :=
      ih _ (got_InvTP tp hInv hpos) hrest.symm
    refine ⟨tpE, ?_, hInvE, hzE, hsdE⟩
    rw [List.length_cons, drainTP, worker_pop_got tp hpos]
    simp only [hrun, ← hw]

end TP

/-- C1: for every queue capacity `C > 0` and every interleaving of
operations, the queue length stays in `[0, C]` (with `Nat` lengths,
non-negativity is by construction): for the producer-consumer buffer,
`count ≤ N` after every schedule, inserts proceed only when `count < N`
and removes only when `count > 0`; for the thread pool, `queue_size`
never exceeds `MAX_QUEUE_SIZE` under any interleaving of submitters,
workers and shutdown. -/
theorem capacity_invariant :
    (∀ (N : Nat) (ops : List PC.BufOp), 0 < N →
      (PC.execOps N ops (PC.init_buffer N)).count ≤ N ∧
      (∀ (item : Int) (r : PC.bounded_buffer_t × List Signal),
          PC.buffer_insert N item (PC.execOps N ops (PC.init_buffer N)) = some r →
            (PC.execOps N ops (PC.init_buffer N)).count < N) ∧
      (∀ r, PC.buffer_remove N (PC.execOps N ops (PC.init_buffer N)) = some r →
            0 < (PC.execOps N ops (PC.init_buffer N)).count)) ∧
    (∀ ops : List TP.TPOp,
      (TP.execOps ops TP.initSys).tp.queue_size ≤ TP.MAX_QUEUE_SIZE) := by
  constructor
  · intro N ops hN
    have hc := PC.count_le_execOps N ops (PC.init_buffer N) (by simp [PC.init_buffer])
    refine ⟨hc, ?_, ?_⟩
    · intro item r hr
      by_cases h : (PC.execOps N ops (PC.init_buffer N)).count = N
      · simp [PC.buffer_insert, h] at hr
      · exact Nat.lt_of_le_of_ne hc h
    · intro r hr
      by_cases h : (PC.execOps N ops (PC.init_buffer N)).count = 0
      · simp [PC.buffer_remove, h] at hr
      · exact Nat.pos_of_ne_zero h
  · intro ops
    exact (TP.execOps_LedgerInv ops TP.initSys TP.initSys_LedgerInv).1.hcount

/-- Witness for C1 at capacity 5 and a concrete schedule. -/
theorem capacity_invariant_witness :
    0 < 5 ∧
      (PC.execOps 5 [PC.BufOp.insert 3, PC.BufOp.remove] (PC.init_buffer 5)).count ≤ 5 :=
  ⟨by decide, (capacity_invariant.1 5 [PC.BufOp.insert 3, PC.BufOp.remove] (by decide)).1⟩

/-- C2: pushing any sequence `xs` (of length at most the capacity) into
a fresh buffer and then popping `xs.length` times as a single consumer
returns exactly `xs` in insertion order: the circular buffer realises
strict FIFO removal. -/
theorem fifo_property (N : Nat) (xs : List Int) (hN : 0 < N)
    (hlen : xs.length ≤ N) :
    ∃ b bEnd, PC.pushAll N xs (PC.init_buffer N) = some b ∧
      PC.popN N xs.length b = some (xs, bEnd) := by
  obtain ⟨b, hpush, hInv, habs⟩ :=
    PC.pushAll_spec N xs (PC.init_buffer N) (PC.init_buffer_Inv N hN)
      (by simpa [PC.init_buffer] using hlen)
  rw [PC.absQ_init] at habs
  simp only [List.nil_append] at habs
  obtain ⟨bEnd, hpop, _, _⟩ := PC.popN_spec N xs b hInv habs
  exact ⟨b, bEnd, hpush, hpop⟩

/-- Witness for C2 at capacity 5 with the sequence `[10, 20, 30]`. -/
theorem fifo_property_witness :
    ∃ b bEnd, PC.pushAll 5 [10, 20, 30] (PC.init_buffer 5) = some b ∧
      PC.popN 5 3 b = some ([10, 20, 30], bEnd) :=
  fifo_property 5 [10, 20, 30] (by decide) (by decide)

/-- C3: if `M` jobs are pushed successfully into a fresh pool before the
shutdown flag is set, then exactly `M` subsequent worker-loop iterations
dequeue a job — and they yield the `M` jobs in insertion order — while
the next iteration (and, since the state is then a fixed point, every
later one) takes the `shutdown && queue_size == 0` exit path: close does
not discard queued items and workers drain before stopping. -/
theorem no_lost_items_under_close (ws : List TP.work_item_t)
    (hlen : ws.length ≤ TP.MAX_QUEUE_SIZE) :
    ∃ tp1 tpE, TP.pushAllTP ws TP.thread_pool_init = some tp1 ∧
      TP.drainTP ws.length (TP.thread_pool_shutdown_lock tp1).1 = some (ws, tpE) ∧
      TP.worker_pop tpE = (TP.PopResult.closed, tpE, []) := by
  obtain ⟨tp1, hpush, hInv1, hsd1, habs1⟩ :=
    TP.pushAllTP_spec ws TP.thread_pool_init TP.init_InvTP rfl
      (by simpa [TP.thread_pool_init] using hlen)
  rw [TP.absTP_init, List.nil_append] at habs1
  have hInv2 : TP.InvTP (TP.thread_pool_shutdown_lock tp1).1 :=
    ⟨hInv1.hlen, hInv1.hcount, hInv1.hhead, hInv1.htail⟩
  have habs2 : TP.absTP (TP.thread_pool_shutdown_lock tp1).1 = ws := habs1
  obtain ⟨tpE, hdrain, hInvE, hzE, hsdE⟩ :=
    TP.drainTP_spec ws (TP.thread_pool_shutdown_lock tp1).1 hInv2 habs2
  refine ⟨tp1, tpE, hpush, hdrain, ?_⟩
  exact TP.worker_pop_closed tpE (by rw [hsdE]; rfl) hzE

/-- Witness for C3 with two concrete jobs. -/
theorem no_lost_items_under_close_witness :
    ∃ tp1 tpE,
      TP.pushAllTP [⟨1, 10⟩, ⟨2, 20⟩] TP.thread_pool_init = some tp1 ∧
      TP.drainTP 2 (TP.thread_pool_shutdown_lock tp1).1
        = some ([⟨1, 10⟩, ⟨2, 20⟩], tpE) ∧
      TP.worker_pop tpE = (TP.PopResult.closed, tpE, []) :=
  no_lost_items_under_close [⟨1, 10⟩, ⟨2, 20⟩] (by decide)

/-- C4: under any interleaving of submitter, worker and shutdown
critical sections, once the pool has shut down and the queue is empty
(the condition under which every worker exits its loop), the sequence of
jobs executed by workers is exactly the sequence of jobs accepted by
`thread_pool_add_work` — the same `K` jobs, each exactly once, no
duplicate and no silent drop, for any number of scheduled workers. -/
theorem exactly_once_execution (ops : List TP.TPOp)
    (_hsd : (TP.execOps ops TP.initSys).tp.shutdown = true)
    (hempty : (TP.execOps ops TP.initSys).tp.queue_size = 0) :
    (TP.execOps ops TP.initSys).executed = (TP.execOps ops TP.initSys).accepted := by
  obtain ⟨hInv, hled⟩ := TP.execOps_LedgerInv ops TP.initSys TP.initSys_LedgerInv
  rw [hled]
  have : TP.absTP (TP.execOps ops TP.initSys).tp = [] := by
    have hl := TP.absTP_length (TP.execOps ops TP.initSys).tp
    rw [hempty] at hl
    exact List.length_eq_zero.mp hl
  rw [this, List.append_nil]

/-- Witness for C4: one job submitted, executed by a worker, then
shutdown — executed list equals accepted list. -/
theorem exactly_once_execution_witness :
    (TP.execOps [TP.TPOp.add_work ⟨1, 1⟩, TP.TPOp.work, TP.TPOp.shutdown_flag]
        TP.initSys).executed
      = (TP.execOps [TP.TPOp.add_work ⟨1, 1⟩, TP.TPOp.work, TP.TPOp.shutdown_flag]
          TP.initSys).accepted :=
  exactly_once_execution [TP.TPOp.add_work ⟨1, 1⟩, TP.TPOp.work, TP.TPOp.shutdown_flag]
    (by decide) (by decide)

/-- C5: on a pool whose `shutdown` flag is set, `thread_pool_add_work`
returns `false` (rejected) at once without entering the wait — whatever
the fill level, which also covers a submitter whose wait guard is
re-evaluated after the flag was set while it was waiting — and leaves
the queue untouched; and a worker-loop iteration on a shut-down empty
queue takes the exit path at once instead of waiting. -/
theorem closed_queue_immediate_return (tp : TP.thread_pool_t)
    (hsd : tp.shutdown = true) :
    (∀ w, TP.thread_pool_add_work w tp = (TP.AddResult.rejected, tp, [])) ∧
    (tp.queue_size = 0 → TP.worker_pop tp = (TP.PopResult.closed, tp, [])) :=
  ⟨fun w => TP.add_work_rejected w tp hsd,
   fun hz => TP.worker_pop_closed tp hsd hz⟩

/-- Witness for C5 on a concrete shut-down pool. -/
theorem closed_queue_immediate_return_witness :
    TP.thread_pool_add_work ⟨9, 9⟩ { TP.thread_pool_init with shutdown := true }
        = (TP.AddResult.rejected, { TP.thread_pool_init with shutdown := true }, []) ∧
      TP.worker_pop { TP.thread_pool_init with shutdown := true }
        = (TP.PopResult.closed, { TP.thread_pool_init with shutdown := true }, []) :=
  ⟨(closed_queue_immediate_return { TP.thread_pool_init with shutdown := true } rfl).1 ⟨9, 9⟩,
   (closed_queue_immediate_return { TP.thread_pool_init with shutdown := true } rfl).2 rfl⟩

/-- C6 counterexample: the claim says `close()` broadcast-wakes ALL
blocked pushers and ALL blocked poppers.  In the code,
`thread_pool_shutdown` performs only `WakeAllConditionVariable(&queue_not_empty)`
(thread_pool.c line 192) and never signals `queue_not_full`: starting
from one blocked pusher and one blocked popper, applying the wake-ups
that shutdown emits leaves the pusher still blocked — the counters end
at `⟨1, 0⟩`, not at the `⟨0, 0⟩` the claim requires. -/
theorem close_wakeup_counterexample :
    applySignals (TP.thread_pool_shutdown_lock TP.thread_pool_init).2 ⟨1, 1⟩
        = ⟨1, 0⟩ ∧
      applySignals (TP.thread_pool_shutdown_lock TP.thread_pool_init).2 ⟨1, 1⟩
        ≠ ⟨0, 0⟩ := by
  constructor
  · rfl
  · decide

/-- C6 (amended): every successful insert emits exactly one
`WakeConditionVariable(&not_empty)` (one blocked popper woken), every
successful remove emits exactly one `WakeConditionVariable(&not_full)`
(one blocked pusher woken), and close (`thread_pool_shutdown`) emits
exactly one `WakeAllConditionVariable(&queue_not_empty)`: it
broadcast-wakes all blocked poppers but wakes no blocked pusher —
blocked pushers are only woken one at a time by subsequent pops. -/
theorem notification_discipline :
    (∀ (N : Nat) (item : Int) (b : PC.bounded_buffer_t) r,
        PC.buffer_insert N item b = some r → r.2 = [Signal.wake CV.not_empty]) ∧
    (∀ (N : Nat) (b : PC.bounded_buffer_t) r,
        PC.buffer_remove N b = some r → r.2.2 = [Signal.wake CV.not_full]) ∧
    (∀ (w : TP.work_item_t) (tp : TP.thread_pool_t),
        (TP.thread_pool_add_work w tp).1 = TP.AddResult.added →
          (TP.thread_pool_add_work w tp).2.2 = [Signal.wake CV.not_empty]) ∧
    (∀ (tp : TP.thread_pool_t) (w : TP.work_item_t) tp' sigs,
        TP.worker_pop tp = (TP.PopResult.got w, tp', sigs) →
          sigs = [Signal.wake CV.not_full]) ∧
    (∀ tp : TP.thread_pool_t,
        (TP.thread_pool_shutdown_lock tp).2 = [Signal.wakeAll CV.not_empty]) ∧
    (∀ (tp : TP.thread_pool_t) (ws : Waiters),
        applySignals (TP.thread_pool_shutdown_lock tp).2 ws = ⟨ws.pushers, 0⟩) := by
  refine ⟨?_, ?_, ?_, ?_, fun tp => rfl, fun tp ws => rfl⟩
  · intro N item b r hr
    by_cases h : b.count = N
    · simp [PC.buffer_insert, h] at hr
    · simp only [PC.buffer_insert, if_neg h, Option.some.injEq] at hr
      rw [← hr]
  · intro N b r hr
    by_cases h : b.count = 0
    · simp [PC.buffer_remove, h] at hr
    · simp only [PC.buffer_remove, if_neg h, Option.some.injEq] at hr
      rw [← hr]
  · intro w tp h
    by_cases h1 : tp.queue_size = TP.MAX_QUEUE_SIZE ∧ tp.shutdown = false
    · simp [TP.thread_pool_add_work, h1] at h
    · by_cases h2 : tp.shutdown
      · simp [TP.thread_pool_add_work, h1, h2] at h
      · have hm : tp.queue_size ≠ TP.MAX_QUEUE_SIZE := fun he =>
          h1 ⟨he, by simpa using h2⟩
        simp [TP.thread_pool_add_work, h1, h2, hm]
  · intro tp w tp' sigs h
    by_cases h1 : tp.queue_size = 0 ∧ tp.shutdown = false
    · simp [TP.worker_pop, h1] at h
    · by_cases h2 : tp.shutdown = true ∧ tp.queue_size = 0
      · simp [TP.worker_pop, h1, h2] at h
      · simp only [TP.worker_pop, if_neg h1, if_neg h2, Prod.mk.injEq] at h
        exact h.2.2.symm

/-- Witness for the amended C6: a successful submission on a fresh pool
emits exactly the single-notify on `queue_not_empty`. -/
theorem notification_discipline_witness :
    (TP.thread_pool_add_work ⟨1, 2⟩ TP.thread_pool_init).2.2
        = [Signal.wake CV.not_empty] :=
  notification_discipline.2.2.1 ⟨1, 2⟩ TP.thread_pool_init (by decide)

/-- C7: after `thread_pool_shutdown` has completed once — the pool is
freed and the caller's handle is NULL, as `thread_pool_demo` maintains
with `g_pool = NULL` — a second `thread_pool_shutdown` call hits the
NULL guard (thread_pool.c line 181): it returns at once, leaves the
terminal no-pool state unchanged, and joins or closes zero worker
handles. -/
theorem shutdown_idempotent (s : TP.PoolSys) :
    TP.thread_pool_shutdown (TP.thread_pool_shutdown (some s)).1
      = ((TP.thread_pool_shutdown (some s)).1, 0) := rfl

/-- C8 counterexample: the claim says a second `thread_pool_start` fails
with `AlreadyStarted` and spawns no additional workers.  The code has no
started-check at all: started twice from a fresh pool, the second call
also returns `true` (success, not an error) and creates
`THREAD_POOL_SIZE` further worker threads, leaving `2 * THREAD_POOL_SIZE`
spawned workers instead of `THREAD_POOL_SIZE`. -/
theorem start_twice_counterexample :
    (TP.thread_pool_start (TP.thread_pool_start ⟨TP.thread_pool_init, 0⟩).2).1 = true ∧
    (TP.thread_pool_start ⟨TP.thread_pool_init, 0⟩).2.live_workers
        = TP.THREAD_POOL_SIZE ∧
    (TP.thread_pool_start (TP.thread_pool_start ⟨TP.thread_pool_init, 0⟩).2).2.live_workers
        = 2 * TP.THREAD_POOL_SIZE :=
  ⟨rfl, rfl, rfl⟩

/-- C8 (amended): `thread_pool_start` performs no already-started check;
a repeated call succeeds again (returns `true`, there is no
`AlreadyStarted` error anywhere in the code) and spawns
`THREAD_POOL_SIZE` additional worker threads, overwriting the stored
handles of the first batch. -/
theorem start_spawns_again (s : TP.PoolSys) :
    (TP.thread_pool_start (TP.thread_pool_start s).2).1 = true ∧
    (TP.thread_pool_start (TP.thread_pool_start s).2).2.live_workers
      = s.live_workers + TP.THREAD_POOL_SIZE + TP.THREAD_POOL_SIZE :=
  ⟨rfl, rfl⟩

/-- C9 counterexample: the claim says shutdown in Immediate mode makes
workers abandon remaining queued jobs (queued-but-undrained jobs are
dropped, their number reported back as a count).  The code has exactly
one shutdown behaviour and it never abandons queued work: with one job
queued and the `shutdown` flag set, a worker's next loop iteration still
dequeues and executes that job (`got`), it does not take the exit path —
and `thread_pool_shutdown` returns `void`, so no dropped count is
reported to anyone. -/
theorem immediate_mode_counterexample :
    (TP.worker_pop (TP.thread_pool_shutdown_lock
        (TP.thread_pool_add_work ⟨7, 7⟩ TP.thread_pool_init).2.1).1).1
      = TP.PopResult.got ⟨7, 7⟩ ∧
    (TP.worker_pop (TP.thread_pool_shutdown_lock
        (TP.thread_pool_add_work ⟨7, 7⟩ TP.thread_pool_init).2.1).1).1
      ≠ TP.PopResult.closed := by
  constructor
  · rfl
  · decide

/-- C9 (amended): the pool has a single shutdown behaviour and it is the
Graceful one: `thread_pool_shutdown` sets the flag and workers keep
draining — from any state satisfying the queue invariant, after the
shutdown flag is set the workers dequeue (and hence execute) every job
that was queued, in order, leaving the queue empty: zero jobs are
dropped, and no drop count exists to be reported (the function returns
`void`). -/
theorem shutdown_drains_all (tp : TP.thread_pool_t) (hInv : TP.InvTP tp) :
    ∃ tpE, TP.drainTP (TP.absTP tp).length (TP.thread_pool_shutdown_lock tp).1
        = some (TP.absTP tp, tpE) ∧ tpE.queue_size = 0 := by
  have hInv2 : TP.InvTP (TP.thread_pool_shutdown_lock tp).1 :=
    ⟨hInv.hlen, hInv.hcount, hInv.hhead, hInv.htail⟩
  obtain ⟨tpE, hdrain, _, hzE, _⟩ :=
    TP.drainTP_spec (TP.absTP tp) (TP.thread_pool_shutdown_lock tp).1 hInv2 rfl
  exact ⟨tpE, hdrain, hzE⟩

/-- Witness for the amended C9 on a fresh pool. -/
theorem shutdown_drains_all_witness :
    ∃ tpE, TP.drainTP (TP.absTP TP.thread_pool_init).length
          (TP.thread_pool_shutdown_lock TP.thread_pool_init).1
        = some (TP.absTP TP.thread_pool_init, tpE) ∧ tpE.queue_size = 0 :=
  shutdown_drains_all TP.thread_pool_init TP.init_InvTP

/-- C10: under every interleaving from a fresh state, both circular
buffers keep their bookkeeping consistent: the insertion index
(`in` / `tail`) and removal index (`out` / `head`) stay in
`[0, capacity)`, the insertion index always equals
`(removal index + length) mod capacity`, and the backing array keeps
length `capacity`, so the array accesses that insert and remove perform
(at the insertion resp. removal index) are in bounds. -/
theorem index_bookkeeping :
    (∀ (N : Nat) (ops : List PC.BufOp), 0 < N →
      (PC.execOps N ops (PC.init_buffer N)).inIdx < N ∧
      (PC.execOps N ops (PC.init_buffer N)).outIdx < N ∧
      (PC.execOps N ops (PC.init_buffer N)).inIdx
        = ((PC.execOps N ops (PC.init_buffer N)).outIdx
            + (PC.execOps N ops (PC.init_buffer N)).count) % N ∧
      (PC.execOps N ops (PC.init_buffer N)).buffer.length = N) ∧
    (∀ ops : List TP.TPOp,
      (TP.execOps ops TP.initSys).tp.tail < TP.MAX_QUEUE_SIZE ∧
      (TP.execOps ops TP.initSys).tp.head < TP.MAX_QUEUE_SIZE ∧
      (TP.execOps ops TP.initSys).tp.tail
        = ((TP.execOps ops TP.initSys).tp.head
            + (TP.execOps ops TP.initSys).tp.queue_size) % TP.MAX_QUEUE_SIZE ∧
      (TP.execOps ops TP.initSys).tp.queue.length = TP.MAX_QUEUE_SIZE) := by
  constructor
  · intro N ops hN
    have hInv := PC.execOps_Inv N ops (PC.init_buffer N) (PC.init_buffer_Inv N hN)
    exact ⟨hInv.hin_lt, hInv.hout, hInv.hin, hInv.hlen⟩
  · intro ops
    have hInv := (TP.execOps_LedgerInv ops TP.initSys TP.initSys_LedgerInv).1
    refine ⟨?_, hInv.hhead, hInv.htail, hInv.hlen⟩
    rw [hInv.htail]
    exact Nat.mod_lt _ TP.MAX_pos

/-- Witness for C10 at capacity 5 and a concrete schedule. -/
theorem index_bookkeeping_witness :
    (PC.execOps 5 [PC.BufOp.insert 7, PC.BufOp.insert 8, PC.BufOp.remove]
        (PC.init_buffer 5)).inIdx < 5 :=
  (index_bookkeeping.1 5 [PC.BufOp.insert 7, PC.BufOp.insert 8, PC.BufOp.remove]
    (by decide)).1
